import Mathlib

/-!
Verification of the concurrent memoized Fibonacci program
(`C++junk.cpp`): a memoized recursive solver `fibonacci_cpp` over a
shared cache `fib_cache : unordered_map<int, long long>`, and a batch
driver `calculateConcurrentFibonacci_cpp` that launches one solver task
per index `0..maxN` and collects the results in index order, replacing a
failed task's result by the sentinel `-1`.

The embedding linearizes the concurrent execution: tasks and recursive
sub-computations run sequentially, threading the shared cache through the
calls (one legal schedule of the shared-memory program; all value-level
claims are stated against it).  C++ `long long` arithmetic is modelled as
mathematical integers wrapped to two's-complement 64-bit on every
arithmetic result (`wrap64`).
-/

/-- The shared memoization cache `fib_cache`: association list from `int`
keys to `long long` values; a store prepends, so lookup sees the newest
binding (matching `unordered_map` overwrite-on-assign). -/
abbrev Cache := List (Int × Int)

/-- Cache read: `fib_cache.count(n)` / `fib_cache[n]`. -/
def cacheLookup : Cache → Int → Option Int
  | [], _ => none
  | (k, v) :: rest, n => if k = n then some v else cacheLookup rest n

/-- Cache write: `fib_cache[n] = result`. -/
def cacheStore (c : Cache) (n v : Int) : Cache := (n, v) :: c

/-- The single error kind of the program: `std::invalid_argument`
thrown on negative input. -/
inductive FibError where
  | invalidInput
deriving DecidableEq

/-- Two's-complement wrap of a mathematical integer to signed 64-bit,
modelling C++ `long long` arithmetic results. -/
def wrap64 (x : Int) : Int := (x + 2 ^ 63) % 2 ^ 64 - 2 ^ 63

/-- The memoized recursive solver `fibonacci_cpp`, linearized: reject
negative input, base cases 0 and 1 bypass the cache, otherwise check the
cache for `n`; on a miss run the two sub-computations for `n - 1` and
`n - 2` (threading the shared cache), sum with 64-bit wrap, store the sum
under `n` and return it. -/
def fibonacci_cpp (n : Int) (c : Cache) : Except FibError (Int × Cache) :=
  if n < 0 then .error .invalidInput
  else if n = 0 then .ok (0, c)
  else if n = 1 then .ok (1, c)
  else
    match cacheLookup c n with
    | some v => .ok (v, c)
    | none =>
      match fibonacci_cpp (n - 1) c with
      | .error e => .error e
      | .ok (a, c1) =>
        match fibonacci_cpp (n - 2) c1 with
        | .error e => .error e
        | .ok (b, c2) =>
          let result := wrap64 (a + b)
          .ok (result, cacheStore c2 n result)
termination_by n.toNat
decreasing_by all_goals omega

/-- Structural-recursion twin of `fibonacci_cpp` on the non-negative
inputs, used for kernel evaluation; proved equal to `fibonacci_cpp` in
`fibonacci_cpp_eq_fibGo`. -/
def fibGo : Nat → Cache → Int × Cache
  | 0, c => (0, c)
  | 1, c => (1, c)
  | k + 2, c =>
    match cacheLookup c ((k + 2 : Nat) : Int) with
    | some v => (v, c)
    | none =>
      let p1 := fibGo (k + 1) c
      let p2 := fibGo k p1.2
      let r := wrap64 (p1.1 + p2.1)
      (r, cacheStore p2.2 ((k + 2 : Nat) : Int) r)

/-- The value the solver computes for a non-negative index `m`: the
mathematical Fibonacci number wrapped to signed 64-bit. -/
def fib64 (m : Nat) : Int := wrap64 ((Nat.fib m : Nat) : Int)

/-- `fib64` keyed by the `Int` cache key. -/
def fib64I (n : Int) : Int := fib64 n.toNat

/-- The cache invariant: every key present in the cache is bound to the
(64-bit wrapped) Fibonacci number of that key. -/
def CacheOK (c : Cache) : Prop := ∀ k v, cacheLookup c k = some v → v = fib64I k

/-- The driver's collection loop, linearized: awaits each task in spawn
order, threading the shared cache; a task that threw contributes the
sentinel `-1` (`catch` branch), the rest contribute their returned
value. -/
def runTasks : List Int → Cache → List Int × Cache
  | [], c => ([], c)
  | i :: rest, c =>
    match fibonacci_cpp i c with
    | .ok (v, c1) =>
      let p := runTasks rest c1
      (v :: p.1, p.2)
    | .error _ =>
      let p := runTasks rest c
      ((-1) :: p.1, p.2)

/-- The indices the driver spawns one task for: `i = 0, 1, ..., maxN`
(empty when `maxN < 0`, matching the `for` loop). -/
def driverInputs (maxN : Int) : List Int :=
  (List.range (maxN + 1).toNat).map (fun i : Nat => (i : Int))

/-- The batch driver `calculateConcurrentFibonacci_cpp`, linearized:
spawns one solver task per index `0..maxN` over the initially empty
shared cache and collects the results in index order.  `numThreads` is
only printed by the source, never used. -/
def calculateConcurrentFibonacci_cpp (maxN : Int) (numThreads : Int) : List Int :=
  (runTasks (driverInputs maxN) []).1


/-- The value component of a fresh solver call (empty starting cache). -/
def solveVal (n : Int) : Option Int :=
  match fibonacci_cpp n [] with
  | .ok p => some p.1
  | .error _ => none

/-- The cache left behind by a fresh solver call (empty starting cache). -/
def solveCache (n : Int) : Cache :=
  match fibonacci_cpp n [] with
  | .ok p => p.2
  | .error _ => []

/-- Repeated solver calls on the same `n`: the result of the last of
`j + 1` successive calls, threading the cache through. -/
def solveRepeat (n : Int) : Nat → Cache → Except FibError (Int × Cache)
  | 0, c => fibonacci_cpp n c
  | j + 1, c =>
    match fibonacci_cpp n c with
    | .ok p => solveRepeat n j p.2
    | .error e => .error e

/-- Reinterpretation of `x mod 2^64` as a signed 64-bit value — the
numeric behaviour the spec ascribes to the `long long` arithmetic. -/
def toSigned64 (x : Int) : Int :=
  if x % 2 ^ 64 < 2 ^ 63 then x % 2 ^ 64 else x % 2 ^ 64 - 2 ^ 64


set_option maxRecDepth 40000

/-- On every non-negative input the solver returns normally, and its
result is computed by the structural twin `fibGo`. -/
theorem fibonacci_cpp_eq_fibGo (m : Nat) :
    ∀ c : Cache, fibonacci_cpp ((m : Nat) : Int) c = Except.ok (fibGo m c) := by
  induction m using Nat.strong_induction_on with
  | _ m ih =>
    intro c
    match m with
    | 0 => rw [fibonacci_cpp]; norm_num [fibGo]
    | 1 => rw [fibonacci_cpp]; norm_num [fibGo]
    | k + 2 =>
      rw [fibonacci_cpp]
      have hlt : ¬(((k + 2 : Nat) : Int) < 0) := by omega
      have h0 : ¬(((k + 2 : Nat) : Int) = 0) := by omega
      have h1 : ¬(((k + 2 : Nat) : Int) = 1) := by omega
      rw [if_neg hlt, if_neg h0, if_neg h1, fibGo]
      cases hc : cacheLookup c ((k + 2 : Nat) : Int) with
      | some v => simp
      | none =>
        have e1 : ((k + 2 : Nat) : Int) - 1 = ((k + 1 : Nat) : Int) := by omega
        have e2 : ((k + 2 : Nat) : Int) - 2 = ((k : Nat) : Int) := by omega
        rcases hp1 : fibGo (k + 1) c with ⟨a, c1⟩
        rcases hp2 : fibGo k c1 with ⟨b, c2⟩
        simp only [e1, e2, ih (k + 1) (by omega), ih k (by omega), hp1, hp2]

theorem cacheOK_nil : CacheOK [] := fun k v h => by simp [cacheLookup] at h

theorem cacheLookup_store (c : Cache) (n v k : Int) :
    cacheLookup (cacheStore c n v) k = if n = k then some v else cacheLookup c k := by
  simp [cacheLookup, cacheStore]

theorem cacheOK_store {c : Cache} {n v : Int} (hc : CacheOK c)
    (hv : v = fib64I n) : CacheOK (cacheStore c n v) := by
  intro k w hw
  rw [cacheLookup_store] at hw
  by_cases h : n = k
  · rw [if_pos h] at hw
    injection hw with hvw
    subst h
    rw [← hvw]
    exact hv
  · rw [if_neg h] at hw
    exact hc k w hw

theorem wrap64_add (a b : Int) : wrap64 (wrap64 a + wrap64 b) = wrap64 (a + b) := by
  unfold wrap64; omega

theorem fib64_add_two (k : Nat) :
    fib64 (k + 2) = wrap64 (fib64 (k + 1) + fib64 k) := by
  rw [fib64, fib64, fib64, wrap64_add, Nat.fib_add_two]
  congr 1
  push_cast
  ring

/-- Main functional-correctness lemma for the structural twin: from any
cache satisfying the invariant, `fibGo m` returns the 64-bit wrapped
Fibonacci number of `m` and preserves the invariant. -/
theorem fibGo_spec (m : Nat) :
    ∀ c : Cache, CacheOK c → (fibGo m c).1 = fib64 m ∧ CacheOK (fibGo m c).2 := by
  induction m using Nat.strong_induction_on with
  | _ m ih =>
    intro c hc
    match m with
    | 0 =>
      refine ⟨?_, hc⟩
      show (0 : Int) = fib64 0
      decide
    | 1 =>
      refine ⟨?_, hc⟩
      show (1 : Int) = fib64 1
      decide
    | k + 2 =>
      rw [fibGo]
      cases hl : cacheLookup c ((k + 2 : Nat) : Int) with
      | some v =>
        refine ⟨?_, hc⟩
        have hv := hc _ _ hl
        have hkey : ((k + 2 : Nat) : Int).toNat = k + 2 := by omega
        show v = fib64 (k + 2)
        rw [hv, fib64I, hkey]
      | none =>
        rcases hp1 : fibGo (k + 1) c with ⟨a, c1⟩
        have h1 := ih (k + 1) (by omega) c hc
        rw [hp1] at h1
        rcases hp2 : fibGo k c1 with ⟨b, c2⟩
        have h2 := ih k (by omega) c1 h1.2
        rw [hp2] at h2
        have ha : a = fib64 (k + 1) := h1.1
        have hb : b = fib64 k := h2.1
        have hkey : ((k + 2 : Nat) : Int).toNat = k + 2 := by omega
        simp only [hp1, hp2]
        constructor
        · show wrap64 (a + b) = fib64 (k + 2)
          rw [ha, hb, ← fib64_add_two]
        · show CacheOK (cacheStore c2 ((k + 2 : Nat) : Int) (wrap64 (a + b)))
          refine cacheOK_store h2.2 ?_
          rw [ha, hb, ← fib64_add_two, fib64I, hkey]

/-- On non-negative input the solver never throws: it returns the result
of the structural computation. -/
theorem fibonacci_cpp_ok {n : Int} (hn : 0 ≤ n) (c : Cache) :
    fibonacci_cpp n c = Except.ok (fibGo n.toNat c) := by
  have hcast : ((n.toNat : Nat) : Int) = n := Int.toNat_of_nonneg hn
  rw [← hcast]
  exact fibonacci_cpp_eq_fibGo n.toNat c

/-- On negative input the solver throws `invalid_argument` at once. -/
theorem fibonacci_cpp_neg {n : Int} (hn : n < 0) (c : Cache) :
    fibonacci_cpp n c = Except.error FibError.invalidInput := by
  rw [fibonacci_cpp, if_pos hn]

/-- Collection-loop correctness: each position holds the solver's value
for its index, with `-1` substituted exactly at the failing (negative)
indices; the cache invariant is preserved. -/
theorem runTasks_spec (l : List Int) :
    ∀ c : Cache, CacheOK c →
      (runTasks l c).1 = l.map (fun i => if i < 0 then (-1 : Int) else fib64I i) ∧
      CacheOK (runTasks l c).2 := by
  induction l with
  | nil => exact fun c hc => ⟨rfl, hc⟩
  | cons i rest ih =>
    intro c hc
    rw [runTasks]
    by_cases hi : i < 0
    · rw [fibonacci_cpp_neg hi]
      have h := ih c hc
      refine ⟨?_, h.2⟩
      show (-1 : Int) :: (runTasks rest c).1 = _
      rw [h.1, List.map_cons, if_pos hi]
    · push_neg at hi
      rw [fibonacci_cpp_ok hi]
      rcases hp : fibGo i.toNat c with ⟨v, c1⟩
      have hs := fibGo_spec i.toNat c hc
      rw [hp] at hs
      have hv : v = fib64I i := hs.1
      have h := ih c1 hs.2
      refine ⟨?_, h.2⟩
      show v :: (runTasks rest c1).1 = _
      rw [h.1, List.map_cons, if_neg (by omega), hv]

theorem wrap64_eq_toSigned64 (x : Int) : wrap64 x = toSigned64 x := by
  unfold wrap64 toSigned64
  by_cases h : x % 2 ^ 64 < 2 ^ 63
  · rw [if_pos h]; omega
  · rw [if_neg h]; omega

theorem solveVal_eq (m : Nat) : solveVal ((m : Nat) : Int) = some (fib64 m) := by
  unfold solveVal
  rw [fibonacci_cpp_eq_fibGo]
  show some (fibGo m []).1 = some (fib64 m)
  exact congrArg some (fibGo_spec m [] cacheOK_nil).1

theorem wrap64_of_lt {x : Int} (h0 : 0 ≤ x) (h : x < 2 ^ 63) : wrap64 x = x := by
  unfold wrap64; omega

theorem wrap64_lt (x : Int) : wrap64 x < 2 ^ 63 := by
  unfold wrap64; omega

/-- Below the overflow threshold the wrapped value is the mathematical
Fibonacci number: `Fib 92` still fits in signed 64-bit. -/
theorem fib64_eq_fib {m : Nat} (hm : m ≤ 92) : fib64 m = ((Nat.fib m : Nat) : Int) := by
  refine wrap64_of_lt (by positivity) ?_
  have h1 : Nat.fib m ≤ Nat.fib 92 := Nat.fib_mono hm
  have h92 : Nat.fib 92 < 2 ^ 63 := by decide
  exact_mod_cast lt_of_le_of_lt h1 h92

/-- From `Fib 93` on, the wrapped value no longer equals the
mathematical Fibonacci number. -/
theorem fib64_ne_fib {m : Nat} (hm : 93 ≤ m) : fib64 m ≠ ((Nat.fib m : Nat) : Int) := by
  have h1 : Nat.fib 93 ≤ Nat.fib m := Nat.fib_mono hm
  have h93 : 2 ^ 63 ≤ Nat.fib 93 := by decide
  have h2 : (2 ^ 63 : Int) ≤ ((Nat.fib m : Nat) : Int) := by exact_mod_cast le_trans h93 h1
  have h3 := wrap64_lt ((Nat.fib m : Nat) : Int)
  rw [fib64]
  omega

theorem driverInputs_nonneg {maxN i : Int} (h : i ∈ driverInputs maxN) : 0 ≤ i := by
  rw [driverInputs, List.mem_map] at h
  obtain ⟨j, _, rfl⟩ := h
  show (0 : Int) ≤ ((j : Nat) : Int)
  omega

/-- The driver's result sequence: the 64-bit Fibonacci value at every
spawned index, in index order — no sentinel substitution ever fires. -/
theorem calculateConcurrentFibonacci_spec (maxN numThreads : Int) :
    calculateConcurrentFibonacci_cpp maxN numThreads = (driverInputs maxN).map fib64I := by
  unfold calculateConcurrentFibonacci_cpp
  rw [(runTasks_spec (driverInputs maxN) [] cacheOK_nil).1]
  refine List.map_congr_left ?_
  intro i hi
  rw [if_neg (by have := driverInputs_nonneg hi; omega)]

theorem driverInputs_length (maxN : Int) :
    (driverInputs maxN).length = (maxN + 1).toNat := by
  rw [driverInputs, List.length_map, List.length_range]

theorem driverInputs_getElem (maxN : Int) (i : Nat) (h : i < (maxN + 1).toNat) :
    (driverInputs maxN)[i]? = some ((i : Nat) : Int) := by
  rw [driverInputs, List.getElem?_map, List.getElem?_range h]
  rfl

/-- The value component of a successful solver call, from any cache
satisfying the invariant. -/
theorem fibonacci_cpp_val {n : Int} (hn : 0 ≤ n) {c : Cache} (hc : CacheOK c) :
    (fibonacci_cpp n c).map Prod.fst = Except.ok (fib64I n) := by
  rw [fibonacci_cpp_ok hn]
  show Except.ok (fibGo n.toNat c).1 = _
  rw [(fibGo_spec n.toNat c hc).1]
  rfl

/-- Base case `n = 0`: returns 0, cache untouched. -/
theorem fibonacci_cpp_zero (c : Cache) : fibonacci_cpp 0 c = Except.ok (0, c) := by
  rw [fibonacci_cpp]
  norm_num

/-- Base case `n = 1`: returns 1, cache untouched. -/
theorem fibonacci_cpp_one (c : Cache) : fibonacci_cpp 1 c = Except.ok (1, c) := by
  rw [fibonacci_cpp]
  norm_num

/-- A cache hit returns the cached value and leaves the cache unchanged. -/
theorem fibonacci_cpp_warm {n : Int} {c : Cache} {v : Int}
    (h2 : 2 ≤ n) (hl : cacheLookup c n = some v) :
    fibonacci_cpp n c = Except.ok (v, c) := by
  rw [fibonacci_cpp, if_neg (by omega : ¬n < 0), if_neg (by omega : ¬n = 0),
    if_neg (by omega : ¬n = 1), hl]

/-- Any number of repeated calls after a call that returned without
changing the cache keep returning the same value. -/
theorem solveRepeat_warm {n : Int} {c : Cache} {v : Int}
    (hwarm : fibonacci_cpp n c = Except.ok (v, c)) :
    ∀ j : Nat, solveRepeat n j c = Except.ok (v, c) := by
  intro j
  induction j with
  | zero => exact hwarm
  | succ j ih =>
    rw [solveRepeat, hwarm]
    exact ih

/-! ## Claims -/

/-- C1 (counterexample): the claim "solve(n) returns Fib(n) for every
n ≥ 0" fails at the concrete input n = 93: the fresh solver call returns
the 64-bit wrapped value, not the mathematical Fibonacci number. -/
theorem claim_C1_counterexample :
    solveVal 93 ≠ some ((Nat.fib 93 : Nat) : Int) := by
  have h : solveVal 93 = some (fib64 93) := solveVal_eq 93
  rw [h]
  intro heq
  exact fib64_ne_fib (by norm_num) (Option.some.inj heq)

/-- C1 (amended): for every 0 ≤ n ≤ 92 — the range where Fib(n) fits a
signed 64-bit `long long` — `solve(n)`, from any cache satisfying the
invariant, returns the standard Fibonacci value Fib(n); on a cache miss
the returned and stored value is the (64-bit) sum of the two recursive
sub-computations for n-1 and n-2. -/
theorem claim_C1_solver_correct :
    ∀ n : Nat, n ≤ 92 → ∀ c : Cache, CacheOK c →
      (fibonacci_cpp ((n : Nat) : Int) c).map Prod.fst =
        Except.ok ((Nat.fib n : Nat) : Int) := by
  intro n hn c hc
  rw [@fibonacci_cpp_val ((n : Nat) : Int) (by omega) c hc]
  have h2 : fib64I ((n : Nat) : Int) = ((Nat.fib n : Nat) : Int) := by
    rw [fib64I, Int.toNat_natCast]
    exact fib64_eq_fib hn
  rw [h2]

/-- C1 witness: the amended theorem applied at n = 10 on the empty
cache gives Fib(10) = 55. -/
theorem claim_C1_witness :
    (fibonacci_cpp ((10 : Nat) : Int) []).map Prod.fst = Except.ok 55 :=
  (claim_C1_solver_correct 10 (by norm_num) [] cacheOK_nil).trans
    (congrArg Except.ok (by decide))

/-- C2: the driver's result sequence has length maxN + 1, its entry at
every index i in 0..maxN is the solver's result for input i (in input
order), and run(10, 4) is [0,1,1,2,3,5,8,13,21,34,55]. -/
theorem claim_C2_driver_results :
    ∀ (maxN : Nat) (k : Int),
      (calculateConcurrentFibonacci_cpp ((maxN : Nat) : Int) k).length = maxN + 1 ∧
      (∀ i : Nat, i ≤ maxN →
        (calculateConcurrentFibonacci_cpp ((maxN : Nat) : Int) k)[i]? =
          solveVal ((i : Nat) : Int)) ∧
      calculateConcurrentFibonacci_cpp 10 4 = [0, 1, 1, 2, 3, 5, 8, 13, 21, 34, 55] := by
  intro maxN k
  have hrw := calculateConcurrentFibonacci_spec ((maxN : Nat) : Int) k
  refine ⟨?_, ?_, ?_⟩
  · rw [hrw, List.length_map, driverInputs_length]
    omega
  · intro i hi
    rw [hrw, List.getElem?_map, driverInputs_getElem _ i (by omega), solveVal_eq i]
    rfl
  · rw [calculateConcurrentFibonacci_spec 10 4]
    decide

/-- C2 witness: at maxN = 10, k = 4 the driver yields 11 results, the
entry at index 3 is the solver's value for 3, and the sequence is the
first eleven Fibonacci numbers. -/
theorem claim_C2_witness :
    (calculateConcurrentFibonacci_cpp ((10 : Nat) : Int) 4).length = 10 + 1 ∧
    (calculateConcurrentFibonacci_cpp ((10 : Nat) : Int) 4)[3]? = solveVal ((3 : Nat) : Int) ∧
    calculateConcurrentFibonacci_cpp 10 4 = [0, 1, 1, 2, 3, 5, 8, 13, 21, 34, 55] :=
  ⟨(claim_C2_driver_results 10 4).1,
   (claim_C2_driver_results 10 4).2.1 3 (by norm_num),
   (claim_C2_driver_results 10 4).2.2⟩

/-- C3: the solver raises InvalidInput exactly on negative input, and on
every non-negative input it returns normally (for any cache state). -/
theorem claim_C3_error_iff_negative :
    ∀ (n : Int) (c : Cache),
      (fibonacci_cpp n c = Except.error FibError.invalidInput ↔ n < 0) ∧
      (0 ≤ n → ∃ p : Int × Cache, fibonacci_cpp n c = Except.ok p) := by
  intro n c
  constructor
  · constructor
    · intro herr
      by_contra hge
      rw [fibonacci_cpp_ok (by omega)] at herr
      exact Except.noConfusion herr
    · intro hneg
      exact fibonacci_cpp_neg hneg c
  · intro hge
    exact ⟨fibGo n.toNat c, fibonacci_cpp_ok hge c⟩

/-- C3 witness: at n = -2 the solver fails with InvalidInput; at n = 5
it returns normally. -/
theorem claim_C3_witness :
    fibonacci_cpp (-2) [] = Except.error FibError.invalidInput ∧
    (∃ p : Int × Cache, fibonacci_cpp 5 [] = Except.ok p) :=
  ⟨(claim_C3_error_iff_negative (-2) []).1.mpr (by norm_num),
   (claim_C3_error_iff_negative 5 []).2 (by norm_num)⟩

/-- C4 (counterexample): after the reachable operation solve(93) on the
empty cache, the key 93 is present but its stored value is not the true
Fibonacci number Fib(93) — it is Fib(93) wrapped to 64 bits. -/
theorem claim_C4_counterexample :
    cacheLookup (solveCache 93) 93 ≠ none ∧
    cacheLookup (solveCache 93) 93 ≠ some ((Nat.fib 93 : Nat) : Int) := by
  have h : solveCache 93 = (fibGo 93 []).2 := by
    unfold solveCache
    rw [show (93 : Int) = ((93 : Nat) : Int) by norm_num, fibonacci_cpp_eq_fibGo]
  rw [h]
  constructor
  · decide
  · decide

/-- C4 (amended): the invariant each solve operation preserves is:
whenever a key n is present in the shared cache, its value is the true
Fibonacci number of n wrapped to signed 64-bit (hence the true Fibonacci
number itself for all n ≤ 92); every solve call started from a cache
satisfying the invariant returns that wrapped value and leaves a cache
still satisfying it — entries are never invalidated or corrupted. -/
theorem claim_C4_cache_invariant :
    ∀ (n : Int) (c : Cache), CacheOK c →
      ∀ (v : Int) (c2 : Cache), fibonacci_cpp n c = Except.ok (v, c2) →
        v = fib64I n ∧ CacheOK c2 := by
  intro n c hc v c2 hok
  by_cases hn : n < 0
  · rw [fibonacci_cpp_neg hn] at hok
    exact Except.noConfusion hok
  · rw [fibonacci_cpp_ok (by omega)] at hok
    have hp : fibGo n.toNat c = (v, c2) := Except.ok.inj hok
    have hs := fibGo_spec n.toNat c hc
    rw [hp] at hs
    exact ⟨hs.1, hs.2⟩

/-- C4 witness: solve(5) from the empty cache returns 5 = fib64I 5 and
leaves a cache satisfying the invariant. -/
theorem claim_C4_witness :
    (5 : Int) = fib64I 5 ∧ CacheOK [(5, 5), (4, 3), (3, 2), (2, 1)] :=
  claim_C4_cache_invariant 5 [] cacheOK_nil 5 [(5, 5), (4, 3), (3, 2), (2, 1)]
    ((fibonacci_cpp_ok (by norm_num) []).trans (congrArg Except.ok (by decide)))

/-- C5: in the driver's collection loop, a failing task (negative index)
contributes the sentinel -1 at its own position, every other position
keeps the solver's correct value, and the batch is never aborted: the
result has one entry per awaited task. -/
theorem claim_C5_sentinel_substitution :
    ∀ (l : List Int) (c : Cache), CacheOK c →
      (runTasks l c).1.length = l.length ∧
      (runTasks l c).1 = l.map (fun i => if i < 0 then (-1 : Int) else fib64I i) := by
  intro l c hc
  have h := (runTasks_spec l c hc).1
  constructor
  · rw [h, List.length_map]
  · exact h

/-- C5 witness: awaiting the batch [2, -7, 4] yields [1, -1, 3] — the
sentinel only at the failing position, correct values elsewhere. -/
theorem claim_C5_witness :
    (runTasks [2, -7, 4] []).1.length = 3 ∧
    (runTasks [2, -7, 4] []).1 = [1, -1, 3] := by
  have h := claim_C5_sentinel_substitution [2, -7, 4] [] cacheOK_nil
  exact ⟨h.1, h.2.trans (by decide)⟩

/-- C6: for maxN ≥ 0 the driver's error branch is unreachable — every
spawned input is non-negative, no spawned task can fail with InvalidInput
from any cache state, and the collected sequence is exactly the solver
values, so the sentinel substitution never fires. -/
theorem claim_C6_no_error_branch :
    ∀ (maxN k : Int), 0 ≤ maxN →
      (∀ i ∈ driverInputs maxN, 0 ≤ i ∧
        ∀ (c : Cache) (e : FibError), fibonacci_cpp i c ≠ Except.error e) ∧
      calculateConcurrentFibonacci_cpp maxN k = (driverInputs maxN).map fib64I := by
  intro maxN k _
  refine ⟨?_, calculateConcurrentFibonacci_spec maxN k⟩
  intro i hi
  have hnn := driverInputs_nonneg hi
  refine ⟨hnn, ?_⟩
  intro c e herr
  rw [fibonacci_cpp_ok hnn] at herr
  exact Except.noConfusion herr

/-- C6 witness: at maxN = 3 with hint 7 the driver's sequence is the
solver values [0, 1, 1, 2] — no sentinel appears. -/
theorem claim_C6_witness :
    calculateConcurrentFibonacci_cpp 3 7 = (driverInputs 3).map fib64I ∧
    calculateConcurrentFibonacci_cpp 3 7 = [0, 1, 1, 2] := by
  have h := (claim_C6_no_error_branch 3 7 (by norm_num)).2
  exact ⟨h, h.trans (by decide)⟩

/-- C7: the driver's result sequence does not depend on the parallelism
hint: any two positive hints give identical sequences (the source only
prints `numThreads`). -/
theorem claim_C7_hint_independent :
    ∀ (maxN k1 k2 : Int), 0 < k1 → 0 < k2 →
      calculateConcurrentFibonacci_cpp maxN k1 = calculateConcurrentFibonacci_cpp maxN k2 :=
  fun _ _ _ _ _ => rfl

/-- C7 witness: hints 1 and 64 give the same sequence at maxN = 10. -/
theorem claim_C7_witness :
    (0 : Int) < 1 ∧ (0 : Int) < 64 ∧
    calculateConcurrentFibonacci_cpp 10 1 = calculateConcurrentFibonacci_cpp 10 64 :=
  ⟨by norm_num, by norm_num, claim_C7_hint_independent 10 1 64 (by norm_num) (by norm_num)⟩

/-- C8: the base cases return 0 and 1 with the cache bypassed: for every
cache state the call returns before any cache access and the cache after
the call is exactly the cache before it. -/
theorem claim_C8_base_cases_bypass_cache :
    ∀ c : Cache, fibonacci_cpp 0 c = Except.ok (0, c) ∧ fibonacci_cpp 1 c = Except.ok (1, c) :=
  fun c => ⟨fibonacci_cpp_zero c, fibonacci_cpp_one c⟩

/-- C9: once the cache is warm for n (an entry for n is present, or n is
a base case), every call solve(n) returns the same value as every other:
there is a single value v such that any number of repeated calls all
return v and leave the cache unchanged. -/
theorem claim_C9_idempotent_when_warm :
    ∀ (n : Int) (c : Cache), 0 ≤ n →
      (n = 0 ∨ n = 1 ∨ cacheLookup c n ≠ none) →
      ∃ v : Int, ∀ j : Nat, solveRepeat n j c = Except.ok (v, c) := by
  intro n c hn hwarm
  by_cases h0 : n = 0
  · subst h0
    exact ⟨0, solveRepeat_warm (fibonacci_cpp_zero c)⟩
  · by_cases h1 : n = 1
    · subst h1
      exact ⟨1, solveRepeat_warm (fibonacci_cpp_one c)⟩
    · have hl : cacheLookup c n ≠ none := by
        rcases hwarm with h | h | h
        · exact absurd h h0
        · exact absurd h h1
        · exact h
      cases hv : cacheLookup c n with
      | none => exact absurd hv hl
      | some v =>
        exact ⟨v, solveRepeat_warm (fibonacci_cpp_warm (by omega) hv)⟩

/-- C9 witness: with the entry (7, 13) present, four repeated calls of
solve(7) all return 13 and leave the cache unchanged. -/
theorem claim_C9_witness :
    solveRepeat 7 3 [(7, 13)] = Except.ok (13, [(7, 13)]) := by
  obtain ⟨v, hv⟩ :=
    claim_C9_idempotent_when_warm 7 [(7, 13)] (by norm_num)
      (Or.inr (Or.inr (by decide)))
  have h0 : fibonacci_cpp 7 [(7, 13)] = Except.ok (v, [(7, 13)]) := hv 0
  have h13 : fibonacci_cpp 7 [(7, 13)] = Except.ok (13, [(7, 13)]) :=
    fibonacci_cpp_warm (by norm_num) (by decide)
  rw [h0] at h13
  have hv13 : v = 13 := (Prod.mk.injEq _ _ _ _).mp (Except.ok.inj h13) |>.1
  rw [hv13] at hv
  exact hv 3

/-- C10: the solver computes in 64-bit signed integers: for every n ≥ 0
(from any cache satisfying the invariant) the returned value is Fib(n)
reduced modulo 2^64 and reinterpreted as signed; from n = 93 on — where
Fib(n) exceeds the signed 64-bit range — that value differs from the
mathematical Fib(n). -/
theorem claim_C10_wraparound :
    (∀ (n : Nat) (c : Cache), CacheOK c →
      (fibonacci_cpp ((n : Nat) : Int) c).map Prod.fst =
        Except.ok (toSigned64 ((Nat.fib n : Nat) : Int))) ∧
    (∀ n : Nat, 93 ≤ n →
      toSigned64 ((Nat.fib n : Nat) : Int) ≠ ((Nat.fib n : Nat) : Int)) := by
  constructor
  · intro n c hc
    rw [@fibonacci_cpp_val ((n : Nat) : Int) (by omega) c hc]
    have h2 : fib64I ((n : Nat) : Int) = toSigned64 ((Nat.fib n : Nat) : Int) := by
      rw [fib64I, Int.toNat_natCast, fib64, wrap64_eq_toSigned64]
    rw [h2]
  · intro n hn
    rw [← wrap64_eq_toSigned64]
    exact fib64_ne_fib hn

/-- C10 witness: solve(94) on the empty cache returns the wrapped value
of Fib(94), and at n = 93 the wrapped value differs from Fib(93). -/
theorem claim_C10_witness :
    (fibonacci_cpp ((94 : Nat) : Int) []).map Prod.fst =
      Except.ok (toSigned64 ((Nat.fib 94 : Nat) : Int)) ∧
    toSigned64 ((Nat.fib 93 : Nat) : Int) ≠ ((Nat.fib 93 : Nat) : Int) :=
  ⟨claim_C10_wraparound.1 94 [] cacheOK_nil, claim_C10_wraparound.2 93 (by norm_num)⟩
